import Mathlib

/-!
# Verification of the buhtig-s8k reconciliation core

Shallow embedding of the namespace-reaper pipeline implemented in
`cmd/main.go` (the entry point built by the Makefile target `build`,
`go build ./cmd`), together with the helper package `pkg/helm/helm.go`
and, for comparison, the legacy entry point `main.go` at the repository
root.

External collaborators (the Kubernetes API, the Tiller/Helm backend and
the GitHub HTTP endpoint) are modelled as oracles supplied to each
embedded function; the functions themselves are direct translations of
the Go control flow.  Observable outbound calls are recorded in a trace
of `Act` values in the order the Go code issues them.
-/

/-- Outcome of running a piece of Go code in one goroutine: either a normal
result or a runtime panic carrying a message.  A panic is recoverable only
by a `recover()` installed in the very same goroutine. -/
inductive GoOutcome (α : Type) where
  | ok (a : α)
  | panic (msg : String)
deriving DecidableEq, Repr

/-- Returns `true` exactly on the `panic` constructor. -/
def GoOutcome.isPanic {α : Type} : GoOutcome α → Bool
  | .ok _ => false
  | .panic _ => true

/-- Error values returned by the external stores, split by the one
classification the code performs: `k8s.io/apimachinery` conflict errors
(`errors.IsConflict`) versus everything else. -/
inductive Err where
  | conflict (msg : String)
  | other (msg : String)
deriving DecidableEq, Repr

/-- The `errors.IsConflict` classification used by `retry.RetryOnConflict`. -/
def Err.isConflict : Err → Bool
  | .conflict _ => true
  | .other _ => false

/-- The type `corev1.NamespacePhase`: the two values of the Kubernetes namespace
phase enum (`Active`, `Terminating`).  The code only ever compares against
`corev1.NamespaceTerminating`. -/
inductive Phase where
  | active
  | terminating
deriving DecidableEq, Repr

/-- Observable outbound calls of one scan run, in program order:
* `branchLookup o r b` — the authenticated GitHub API request issued by
  `getBranchURLStatus` for `https://api.github.com/repos/o/r/branches/b`;
* `releaseTerminate rel` — an invocation of `helm.DeleteRelease(rel, ...)`;
* `helmStatusCheck rel` — the `helmClient.ReleaseStatus(rel)` call inside
  `helm.DeleteRelease`;
* `helmDelete rel` — the actual `helmClient.DeleteRelease(rel, purge)` call;
* `nsGet n` — the `Namespaces().Get(n)` re-fetch inside
  `filterNamespaceDeleted`;
* `nsDelete n` — the `Namespaces().Delete(n)` call. -/
inductive Act where
  | branchLookup (owner repo branch : String)
  | releaseTerminate (rel : String)
  | helmStatusCheck (rel : String)
  | helmDelete (rel : String)
  | nsGet (name : String)
  | nsDelete (name : String)
deriving DecidableEq, Repr

/-- Returns `true` on the GitHub lookup action. -/
def Act.isLookup : Act → Bool
  | .branchLookup _ _ _ => true
  | _ => false

/-- Returns `true` on the two Kubernetes namespace-termination actions. -/
def Act.isNsAct : Act → Bool
  | .nsGet _ => true
  | .nsDelete _ => true
  | _ => false

/-- Returns `true` on the three Helm actions. -/
def Act.isHelmAct : Act → Bool
  | .releaseTerminate _ => true
  | .helmStatusCheck _ => true
  | .helmDelete _ => true
  | _ => false

/-- The label/annotation keys of `cmd/main.go`. -/
def githubURLAnnotKey : String := "opuscapita.com/github-source-url"

/-- The helm-release annotation key of `cmd/main.go`. -/
def helmReleaseAnnotKey : String := "opuscapita.com/helm-release"

/-- The data the core reads from a `corev1.Namespace`: its name, its phase
and its metadata annotations (a finite string map, modelled as an
association list). -/
structure K8sNamespace where
  name : String
  phase : Phase
  annots : List (String × String)
deriving DecidableEq, Repr

/-- Go map lookup on the association-list model of
`ObjectMeta.Annotations`. -/
def lookupAnnot : List (String × String) → String → Option String
  | [], _ => none
  | (k, v) :: rest, key => if k = key then some v else lookupAnnot rest key

/-- The method `(ns *namespace) GithubSourceURL()` from `cmd/main.go`: the annotation
value, or an error when the annotation is not set. -/
def GithubSourceURL (ns : K8sNamespace) : Except String String :=
  match lookupAnnot ns.annots githubURLAnnotKey with
  | none => .error "Annotation opuscapita.com/github-source-url not set"
  | some v => .ok v

/-- The method `(ns *namespace) HelmRelease()` from `cmd/main.go`: the annotation
value, or an error when the annotation is not set. -/
def HelmRelease (ns : K8sNamespace) : Except String String :=
  match lookupAnnot ns.annots helmReleaseAnnotKey with
  | none => .error "Annotation opuscapita.com/helm-release not set"
  | some v => .ok v

/-! ## The branch-URL regular expression

`cmd/main.go` matches the namespace annotation against the Go regexp
`https://github.com/([^/]+)/([^/]+)/tree/([^/]+)` with
`FindStringSubmatch`, i.e. an *unanchored* leftmost search.  Because each
capture group is a nonempty run of non-`/` characters followed by a fixed
delimiter, the backtracking search at a given start position is
deterministic: each `[^/]+` group must be the maximal slash-free run.
`findBranchURLMatch` therefore tries every start position from the left
and, at each, matches the literal prefix and the three maximal runs. -/

/-- Match a literal character sequence at the head of the input, returning
the remainder on success. -/
def dropLit : List Char → List Char → Option (List Char)
  | [], s => some s
  | _ :: _, [] => none
  | c :: cs, a :: rest => if a = c then dropLit cs rest else none

/-- The literal head of the branch-URL regexp. -/
def ghLit : List Char := "https://github.com/".data

/-- The literal between the repo and branch capture groups. -/
def treeLit : List Char := "/tree/".data

/-- Bool predicate for the `[^/]` character class. -/
def notSlash (c : Char) : Bool := c != '/'

/-- Attempt the regexp match anchored at the head of `s`: the literal
`https://github.com/`, then maximal nonempty slash-free runs for owner and
repo separated by `/`, the literal `/tree/`, and a maximal nonempty
slash-free run for the branch. -/
def tryMatchAt (s : List Char) : Option (String × String × String) :=
  match dropLit ghLit s with
  | none => none
  | some r1 =>
    let o := r1.takeWhile notSlash
    if o.isEmpty then none else
    match r1.dropWhile notSlash with
    | '/' :: r3 =>
      let rp := r3.takeWhile notSlash
      if rp.isEmpty then none else
      match dropLit treeLit (r3.dropWhile notSlash) with
      | none => none
      | some r5 =>
        let b := r5.takeWhile notSlash
        if b.isEmpty then none else
        some (String.mk o, String.mk rp, String.mk b)
    | _ => none

/-- The `FindStringSubmatch` of the branch-URL regexp: the leftmost start
position at which `tryMatchAt` succeeds, or `none`. -/
def findBranchURLMatch : List Char → Option (String × String × String)
  | [] => tryMatchAt []
  | c :: rest =>
    match tryMatchAt (c :: rest) with
    | some m => some m
    | none => findBranchURLMatch rest

/-- The panic message of a Go nil-pointer dereference. -/
def nilDerefMsg : String :=
  "runtime error: invalid memory address or nil pointer dereference"

/-- The function `getBranchURLStatus` from `cmd/main.go`.  The HTTP transport is the
oracle `http`, mapping a request URL to a status code or a transport
error.  On a regexp mismatch the function returns an error without any
request.  On a match it issues the GitHub API request; a transport
failure leaves `resp = nil`, so the statement `defer resp.Body.Close()`
dereferences a nil pointer and the goroutine panics before the
`if err != nil` branch can return. -/
def getBranchURLStatus (http : String → Except String Nat) (branchURL : String) :
    GoOutcome (Except String Nat) × List Act :=
  match findBranchURLMatch branchURL.data with
  | none => (.ok (.error "branchURL does not match regexp"), [])
  | some (o, r, b) =>
    let apiURL := "https://api.github.com/repos/" ++ o ++ "/" ++ r ++ "/branches/" ++ b
    match http apiURL with
    | .ok st => (.ok (.ok st), [.branchLookup o r b])
    | .error _ => (.panic nilDerefMsg, [.branchLookup o r b])

/-- The function `getBranchURLStatus` from the legacy root `main.go`: same regexp and
request, but the transport error is checked *before* the response body is
touched (`resp, err := client.Do(req); if err != nil { return 0, err }`),
so a transport failure is returned as an error value. -/
def getBranchURLStatusLegacy (http : String → Except String Nat) (branchURL : String) :
    Except String Nat × List Act :=
  match findBranchURLMatch branchURL.data with
  | none => (.error "branchURL does not match regexp", [])
  | some (o, r, b) =>
    let apiURL := "https://api.github.com/repos/" ++ o ++ "/" ++ r ++ "/branches/" ++ b
    match http apiURL with
    | .ok st => (.ok st, [.branchLookup o r b])
    | .error e => (.error e, [.branchLookup o r b])

/-! ## The retry wrapper

Both termination stages wrap their mutating operation in
`retry.RetryOnConflict(retry.DefaultRetry, fn)` from
`k8s.io/client-go/util/retry`.  `DefaultRetry` allows `Steps = 5`
attempts.  The wrapper re-invokes `fn` while it returns a conflict error,
stops immediately on success or on any non-conflict error, and after
exhausting the attempts returns the last conflict error.  The attempt
bodies are modelled as a function of the attempt index (the external
world may answer differently on different attempts), returning the Go
error and the trace of calls made during that attempt. -/

/-- One unrolling step of `wait.ExponentialBackoff` as driven by
`retry.RetryOnConflict`: `fuel` is the number of remaining attempts,
`attempt` the index of the next one, `last` the most recent conflict
error (returned when the attempts are exhausted). -/
def retryAux (fn : Nat → Except Err Unit × List Act) :
    Err → Nat → Nat → Except Err Unit × List Act
  | lastErr, 0, _ => (.error lastErr, [])
  | _, fuel + 1, attempt =>
    match fn attempt with
    | (.ok _, as) => (.ok (), as)
    | (.error e, as) =>
      if e.isConflict then
        let rest := retryAux fn e fuel (attempt + 1)
        (rest.fst, as ++ rest.snd)
      else (.error e, as)

/-- The wrapper `retry.RetryOnConflict(retry.DefaultRetry, fn)`: up to 5 attempts.
The initial `last` value is unreachable: the first attempt always runs,
and the fuel can only hit zero after a conflict has been stored. -/
def retryOnConflict (fn : Nat → Except Err Unit × List Act) :
    Except Err Unit × List Act :=
  retryAux fn (Err.other "timed out waiting for the condition") 5 0

/-! ## The Release Terminator (`pkg/helm/helm.go`) -/

/-- The Helm release status codes the code compares against
(`release.Status_DELETED`, `release.Status_DELETING`); every other code
(DEPLOYED, FAILED, ...) is collapsed into `liveCode` since the code only
tests the two. -/
inductive HelmStatus where
  | deleted
  | deleting
  | liveCode
deriving DecidableEq, Repr

/-- The Tiller backend's answers for one invocation of
`helm.DeleteRelease`: the port-forward tunnel construction, the
`PingTiller` probe, the `ReleaseStatus` query for the given release and
the `DeleteRelease` gRPC call. -/
structure HelmWorld where
  tunnel : Except Err Unit
  ping : Except Err Unit
  status : Except Err HelmStatus
  delete : Except Err Unit

/-- The function `helm.DeleteRelease` from `pkg/helm/helm.go` against the backend
answers `w`.  The trace starts with `releaseTerminate` marking the
invocation itself.  Control flow of the source: tunnel error → return it;
ping error → return it; `ReleaseStatus` error → log it and return `nil`
(release treated as gone); status `DELETED`/`DELETING` → return `nil`
without deleting; otherwise issue the purge delete and return its
outcome. -/
def DeleteRelease (w : HelmWorld) (name : String) : Except Err Unit × List Act :=
  match w.tunnel with
  | .error e => (.error e, [.releaseTerminate name])
  | .ok _ =>
    match w.ping with
    | .error e => (.error e, [.releaseTerminate name])
    | .ok _ =>
      match w.status with
      | .error _ => (.ok (), [.releaseTerminate name, .helmStatusCheck name])
      | .ok st =>
        if st = HelmStatus.deleted ∨ st = HelmStatus.deleting then
          (.ok (), [.releaseTerminate name, .helmStatusCheck name])
        else
          match w.delete with
          | .error e =>
            (.error e, [.releaseTerminate name, .helmStatusCheck name, .helmDelete name])
          | .ok _ =>
            (.ok (), [.releaseTerminate name, .helmStatusCheck name, .helmDelete name])

/-! ## The per-namespace stage functions of `cmd/main.go`

Each `filter*` function forwards a namespace to its output channel
exactly when the stage signals "proceed"; the boolean below records
whether the namespace was forwarded.  Workers for distinct namespaces
are independent, so the per-namespace semantics is a pure function of
that namespace and the oracles. -/

/-- The worker body of `filterWithDeletedBranches` for one namespace:
read the `github-source-url` annotation (abort when missing), query the
branch status (abort on error, panic on transport failure, see
`getBranchURLStatus`), and forward the namespace exactly when the status
is 404. -/
def branchStage (http : String → Except String Nat) (ns : K8sNamespace) :
    GoOutcome Bool × List Act :=
  match GithubSourceURL ns with
  | .error _ => (.ok false, [])
  | .ok url =>
    match getBranchURLStatus http url with
    | (.panic m, as) => (.panic m, as)
    | (.ok (.error _), as) => (.ok false, as)
    | (.ok (.ok st), as) => if st ≠ 404 then (.ok false, as) else (.ok true, as)

/-- The retried attempt body of `filterHelmReleaseDeletedIfNeeded`: when
the `helm-release` annotation is missing the body logs and returns `nil`
(skip, not a failure); otherwise it calls `helm.DeleteRelease`. -/
def helmStageFn (worlds : Nat → HelmWorld) (ns : K8sNamespace) (attempt : Nat) :
    Except Err Unit × List Act :=
  match HelmRelease ns with
  | .error _ => (.ok (), [])
  | .ok rel => DeleteRelease (worlds attempt) rel

/-- The worker body of `filterHelmReleaseDeletedIfNeeded` for one
namespace: the retry-wrapped attempt body; the namespace is forwarded
exactly when the wrapper reports success. -/
def helmStage (worlds : Nat → HelmWorld) (ns : K8sNamespace) : Bool × List Act :=
  match retryOnConflict (helmStageFn worlds ns) with
  | (.ok _, as) => (true, as)
  | (.error _, as) => (false, as)

/-- The Kubernetes store's answers for one attempt of the namespace
terminator: the `Get` re-fetch (an error for an absent namespace or a
failed request, otherwise the current phase) and the `Delete` call. -/
structure NsWorld where
  get : Except Err Phase
  delete : Except Err Unit

/-- The retried attempt body of `filterNamespaceDeleted`: re-fetch the
namespace (any `Get` error → log and return `nil`: nothing to delete);
if the fetched phase is `Terminating` → return `nil`; otherwise issue the
delete and return its outcome. -/
def nsStageFn (worlds : Nat → NsWorld) (name : String) (attempt : Nat) :
    Except Err Unit × List Act :=
  match (worlds attempt).get with
  | .error _ => (.ok (), [.nsGet name])
  | .ok ph =>
    if ph = Phase.terminating then (.ok (), [.nsGet name])
    else
      match (worlds attempt).delete with
      | .error e => (.error e, [.nsGet name, .nsDelete name])
      | .ok _ => (.ok (), [.nsGet name, .nsDelete name])

/-- The worker body of `filterNamespaceDeleted` for one namespace. -/
def nsStage (worlds : Nat → NsWorld) (name : String) : Bool × List Act :=
  match retryOnConflict (nsStageFn worlds name) with
  | (.ok _, as) => (true, as)
  | (.error _, as) => (false, as)

/-- All external oracles of one scan run. -/
structure World where
  http : String → Except String Nat
  helmW : Nat → HelmWorld
  k8sW : Nat → NsWorld

/-- The journey of a single namespace through the composed pipeline
`filterNamespaceDeleted (filterHelmReleaseDeletedIfNeeded
(filterWithDeletedBranches ...))` of `cmd/main.go`: each stage runs only
if the previous one forwarded the namespace; the final boolean records
arrival on the `processed` channel; the trace concatenates the stage
traces in order. -/
def processNamespaceChain (w : World) (ns : K8sNamespace) :
    GoOutcome Bool × List Act :=
  match branchStage w.http ns with
  | (.panic m, as1) => (.panic m, as1)
  | (.ok false, as1) => (.ok false, as1)
  | (.ok true, as1) =>
    match helmStage w.helmW ns with
    | (false, as2) => (.ok false, as1 ++ as2)
    | (true, as2) =>
      match nsStage w.k8sW ns.name with
      | (b, as3) => (.ok b, as1 ++ (as2 ++ as3))

/-! ## Process-level fault semantics (`main` in `cmd/main.go`)

`main` creates two capacity-1 channels, `start` and `errReport`, sends
one token on `start`, and then loops: spawn a supervisor goroutine whose
body is `defer { recover(); errReport <- err } ;
for { select { case <-start: ... } }`, block on `<-errReport`, log the
error, repeat.  Each iteration of the supervisor's inner loop *consumes*
the start token; the token is replenished only by the reschedule
goroutine (`go func() { <-time.After(time.Minute); start <- struct{}{} }`)
which is spawned as the *last* step of a completed iteration.  The outer
loop never sends on `start` itself.

Go's `recover()` only intercepts panics raised in its own goroutine.
The per-namespace workers are separate goroutines
(`go func(ns *namespace) {...}` inside each `filter*`) with no `recover`
of their own, so a panic in a worker propagates to the top of that
goroutine's stack and the Go runtime terminates the whole process. -/

/-- The value a Go `panic` was called with, as discriminated by the type
switch in the supervisor's deferred recovery handler of `cmd/main.go`
(`case string`, `case error`, `default`). -/
inductive PanicPayload where
  | str (s : String)
  | errVal (msg : String)
  | otherVal (formatted : String)
deriving DecidableEq, Repr

/-- The conversion in the recovery handler: `errors.New(t)` for a string,
the error itself for an error, `fmt.Errorf("%v", t)` for anything else.
The result is the message of the error sent on `errReport`. -/
def recoverToError : PanicPayload → String
  | .str s => s
  | .errVal m => m
  | .otherVal f => f

/-- State of the two ways a start token can reach the supervisor:
`startToken` is true when a value is buffered in the capacity-1 `start`
channel; `reschedulePending` is true when a reschedule goroutine has been
spawned and will send on `start` after its sleep. -/
structure LoopState where
  startToken : Bool
  reschedulePending : Bool
deriving DecidableEq, Repr

/-- Fate of one iteration body of the supervisor goroutine (the code run
between receiving the start token and the next `select`): it either runs
to completion — and `cmd/main.go` spawns the reschedule goroutine as the
iteration's final step — or panics at some point, with `rescheduled`
recording whether that final spawn had already happened when the panic
fired (a panic inside the pipeline or the drain has
`rescheduled = false`). -/
inductive IterFate where
  | completes
  | panics (p : PanicPayload) (rescheduled : Bool)
deriving DecidableEq, Repr

/-- What the outer `for` loop observes when a supervisor goroutine dies:
the message of the error received on `errReport` (which it logs) and the
channel state the dead goroutine left behind — the state in which the
fresh supervisor goroutine is spawned. -/
structure SupReport where
  logged : String
  after : LoopState
deriving DecidableEq, Repr

/-- Result of one turn of the supervisor goroutine's inner loop. -/
inductive SupTurn where
  | blockedForever
  | nextIteration (s : LoopState)
  | reported (r : SupReport)
deriving DecidableEq, Repr

/-- Whether a reschedule goroutine is still pending once the supervisor
has received its token: receiving consumes the buffered token if one is
present, otherwise it consumes the send of the pending reschedule
goroutine. -/
def consumePending (s : LoopState) : Bool :=
  if s.startToken then s.reschedulePending else false

/-- One turn of the supervisor goroutine's
`for { select { case <-start: ... } }` loop in channel state `s`, given
the fate of the iteration it would run.  If no token is buffered and no
reschedule goroutine is pending, `<-start` can never fire and the
goroutine is parked forever.  Otherwise the token is consumed and the
iteration runs: on completion the reschedule goroutine is spawned and the
supervisor selects again; on a panic the deferred recovery converts the
payload, sends it on `errReport`, and the goroutine ends, leaving the
channel state as of the panic point — the consumed token is replenished
only if the reschedule spawn had already happened. -/
def superviseTurn (s : LoopState) (fate : IterFate) : SupTurn :=
  if s.startToken = false ∧ s.reschedulePending = false then .blockedForever
  else
    match fate with
    | .completes => .nextIteration ⟨false, true⟩
    | .panics p rescheduled =>
      .reported ⟨recoverToError p, ⟨false, consumePending s || rescheduled⟩⟩

/-- Fate of the process after one scan run over the discovered
candidates. -/
inductive RunOutcome where
  | completed
  | crashedProcess (msg : String)
deriving DecidableEq, Repr

/-- The message of the first per-namespace worker panic of the run, if
any.  (For the process fate only existence matters; the runtime kills the
process on whichever unrecovered panic fires first.) -/
def firstWorkerPanic (w : World) : List K8sNamespace → Option String
  | [] => none
  | ns :: rest =>
    match (processNamespaceChain w ns).fst with
    | .panic m => some m
    | .ok _ => firstWorkerPanic w rest

/-- Process fate of one scan run of `cmd/main.go` over the candidate list
`nss`: if no worker panics, every worker finishes, the `processed`
channel drains and the run completes (rescheduling after the sleep); if
any worker goroutine panics, no `recover` exists in that goroutine and
the Go runtime terminates the process. -/
def runIteration (w : World) (nss : List K8sNamespace) : RunOutcome :=
  match firstWorkerPanic w nss with
  | some m => .crashedProcess m
  | none => .completed

/-! ## The spec-side URL shape (for claim C9)

The specification describes the branch-check input as "a URL matching the
shape `scheme://host/OWNER/REPO/tree/BRANCH`".  For the refinement
comparison we render that shape literally: the *whole* input is a scheme
(nonempty, no `/` or `:`), the separator `://`, then host, OWNER, REPO, the
literal `tree` segment and BRANCH, each a nonempty slash-free segment,
with nothing following BRANCH. -/

/-- Bool predicate for a scheme character (anything but `/` and `:`). -/
def schemeChar (c : Char) : Bool := c != '/' && c != ':'

/-- Parse the spec's URL shape `scheme://host/OWNER/REPO/tree/BRANCH`
against the whole input, returning OWNER, REPO and BRANCH. -/
def specURLShape (s : String) : Option (String × String × String) :=
  let cs := s.data
  let scheme := cs.takeWhile schemeChar
  if scheme.isEmpty then none else
  match dropLit "://".data (cs.dropWhile schemeChar) with
  | none => none
  | some afterScheme =>
    let host := afterScheme.takeWhile notSlash
    if host.isEmpty then none else
    match afterScheme.dropWhile notSlash with
    | '/' :: r1 =>
      let o := r1.takeWhile notSlash
      if o.isEmpty then none else
      match r1.dropWhile notSlash with
      | '/' :: r2 =>
        let rp := r2.takeWhile notSlash
        if rp.isEmpty then none else
        match dropLit treeLit (r2.dropWhile notSlash) with
        | none => none
        | some r3 =>
          let b := r3.takeWhile notSlash
          if b.isEmpty then none else
          if r3.dropWhile notSlash ≠ [] then none else
          some (String.mk o, String.mk rp, String.mk b)
      | _ => none
    | _ => none

/-- The release status answers for which `helm.DeleteRelease` treats the
release as already gone: a `ReleaseStatus` error (release unknown) or a
`DELETED`/`DELETING` status code. -/
def releaseGone (st : Except Err HelmStatus) : Prop :=
  (∃ e, st = .error e) ∨ st = .ok HelmStatus.deleted ∨ st = .ok HelmStatus.deleting

/-- The `Get` answers for which the namespace terminator bails out: any
error (absent namespace, failed request) or a namespace already in
`Terminating` phase. -/
def nsGone (g : Except Err Phase) : Prop :=
  (∃ e, g = .error e) ∨ g = .ok Phase.terminating

/-- A trace in which every `nsDelete` is immediately preceded by an
`nsGet` for the given namespace name (the "re-fetch right before
delete" discipline). -/
def GetBeforeDelete (name : String) (l : List Act) : Prop :=
  ∀ j n, l[j]? = some (Act.nsDelete n) →
    0 < j ∧ l[j - 1]? = some (Act.nsGet name)

/-! ## Concrete fixtures used by the witness theorems -/

/-- The namespace of the spec's concrete scenario: both annotations set. -/
def nsFoo : K8sNamespace :=
  { name := "dev-foo-issue-1"
    phase := .active
    annots := [(githubURLAnnotKey, "https://github.com/acme/foo/tree/issue-1"),
               (helmReleaseAnnotKey, "dev-foo-issue-1")] }

/-- Like `nsFoo` but without the `helm-release` annotation. -/
def nsNoRel : K8sNamespace :=
  { name := "dev-foo-issue-1"
    phase := .active
    annots := [(githubURLAnnotKey, "https://github.com/acme/foo/tree/issue-1")] }

/-- An HTTP transport answering every request with status 200. -/
def http200 : String → Except String Nat := fun _ => .ok 200

/-- An HTTP transport answering every request with status 404. -/
def http404 : String → Except String Nat := fun _ => .ok 404

/-- An HTTP transport failing every request at the transport level. -/
def httpDown : String → Except String Nat := fun _ => .error "dial tcp: connection refused"

/-- A healthy Tiller backend hosting a live release. -/
def helmWLive : Nat → HelmWorld := fun _ => ⟨.ok (), .ok (), .ok .liveCode, .ok ()⟩

/-- A healthy Tiller backend whose release status query fails (release
unknown to Tiller). -/
def helmWGone : Nat → HelmWorld := fun _ => ⟨.ok (), .ok (), .error (.other "release not found"), .ok ()⟩

/-- A Kubernetes store holding the namespace in `Active` phase and
accepting the delete. -/
def k8sWLive : Nat → NsWorld := fun _ => ⟨.ok .active, .ok ()⟩

/-- A Kubernetes store whose `Get` fails with a transient transport
error. -/
def k8sWErr : Nat → NsWorld := fun _ => ⟨.error (.other "i/o timeout"), .ok ()⟩

/-- A Kubernetes store reporting the namespace already `Terminating`. -/
def k8sWTerm : Nat → NsWorld := fun _ => ⟨.ok .terminating, .ok ()⟩

/-- The all-healthy world with every branch still present (status 200). -/
def wAll200 : World := ⟨http200, helmWLive, k8sWLive⟩

/-- The all-healthy world with every branch deleted (status 404). -/
def wAll404 : World := ⟨http404, helmWLive, k8sWLive⟩

/-- The world whose HTTP transport is down. -/
def wDown : World := ⟨httpDown, helmWLive, k8sWLive⟩

/-- The optimistic-concurrency conflict message of the Kubernetes API. -/
def conflictMsg : String := "the object has been modified"

/-- A store whose delete conflicts on the first two attempts and then
succeeds. -/
def k8sWConf2 : Nat → NsWorld := fun att =>
  if att < 2 then ⟨.ok .active, .error (.conflict conflictMsg)⟩
  else ⟨.ok .active, .ok ()⟩

/-- A store whose delete conflicts on every attempt. -/
def k8sWConfAll : Nat → NsWorld := fun _ =>
  ⟨.ok .active, .error (.conflict conflictMsg)⟩

/-- A store whose delete fails with a non-conflict error. -/
def k8sWDenied : Nat → NsWorld := fun _ =>
  ⟨.ok .active, .error (.other "forbidden")⟩

/-! ## Helper lemmas about the URL matcher -/

theorem dropLit_self (lit : List Char) : ∀ s : List Char, dropLit lit (lit ++ s) = some s := by
  induction lit with
  | nil => intro s; rfl
  | cons c cs ih => intro s; simp [dropLit, ih]

theorem takeWhile_noSlash (l : List Char) (h : '/' ∉ l) :
    l.takeWhile notSlash = l := by
  induction l with
  | nil => rfl
  | cons c cs ih =>
    simp only [List.mem_cons, not_or] at h
    have hc : notSlash c = true := by
      simp [notSlash, bne_iff_ne]
      exact fun hcc => h.1 hcc.symm
    simp [List.takeWhile_cons, hc, ih h.2]

theorem takeWhile_noSlash_append (l t : List Char) (h : '/' ∉ l) :
    (l ++ '/' :: t).takeWhile notSlash = l := by
  induction l with
  | nil => simp [List.takeWhile_cons, notSlash]
  | cons c cs ih =>
    simp only [List.mem_cons, not_or] at h
    have hc : notSlash c = true := by
      simp [notSlash, bne_iff_ne]
      exact fun hcc => h.1 hcc.symm
    simpa [List.takeWhile_cons, hc] using ih h.2

theorem dropWhile_noSlash_append (l t : List Char) (h : '/' ∉ l) :
    (l ++ '/' :: t).dropWhile notSlash = '/' :: t := by
  induction l with
  | nil => simp [List.dropWhile_cons, notSlash]
  | cons c cs ih =>
    simp only [List.mem_cons, not_or] at h
    have hc : notSlash c = true := by
      simp [notSlash, bne_iff_ne]
      exact fun hcc => h.1 hcc.symm
    simpa [List.dropWhile_cons, hc] using ih h.2

/-- On a well-formed GitHub branch URL the anchored match succeeds with
exactly the three path segments. -/
theorem tryMatchAt_wellformed (o r b : List Char)
    (ho : o ≠ []) (hr : r ≠ []) (hb : b ≠ [])
    (hos : '/' ∉ o) (hrs : '/' ∉ r) (hbs : '/' ∉ b) :
    tryMatchAt (ghLit ++ (o ++ '/' :: (r ++ (treeLit ++ b))))
      = some (String.mk o, String.mk r, String.mk b) := by
  have h1 : dropLit ghLit (ghLit ++ (o ++ '/' :: (r ++ (treeLit ++ b))))
      = some (o ++ '/' :: (r ++ (treeLit ++ b))) := dropLit_self _ _
  have htake : (o ++ '/' :: (r ++ (treeLit ++ b))).takeWhile notSlash = o :=
    takeWhile_noSlash_append o _ hos
  have hdrop : (o ++ '/' :: (r ++ (treeLit ++ b))).dropWhile notSlash
      = '/' :: (r ++ (treeLit ++ b)) := dropWhile_noSlash_append o _ hos
  have hrt : r ++ (treeLit ++ b) = r ++ '/' :: ("tree/".data ++ b) := by
    simp [treeLit]
  have htake2 : (r ++ (treeLit ++ b)).takeWhile notSlash = r := by
    rw [hrt]; exact takeWhile_noSlash_append r _ hrs
  have hdrop2 : (r ++ (treeLit ++ b)).dropWhile notSlash = treeLit ++ b := by
    rw [hrt]; rw [dropWhile_noSlash_append r _ hrs]; simp [treeLit]
  have h5 : dropLit treeLit (treeLit ++ b) = some b := dropLit_self _ _
  have htb : b.takeWhile notSlash = b := takeWhile_noSlash b hbs
  simp only [tryMatchAt, h1, htake, hdrop, htake2, hdrop2, h5, htb]
  simp [List.isEmpty_iff, ho, hr, hb]

theorem findBranchURLMatch_of_tryMatchAt (s : List Char)
    (m : String × String × String) (h : tryMatchAt s = some m) :
    findBranchURLMatch s = some m := by
  cases s with
  | nil => simpa [findBranchURLMatch] using h
  | cons c rest => simp [findBranchURLMatch, h]

/-! ## Helper lemmas about the retry wrapper -/

theorem retryAux_step_ok (fn : Nat → Except Err Unit × List Act)
    (lastE : Err) (fuel attempt : Nat) (u : Unit) (as : List Act)
    (hfa : fn attempt = (.ok u, as)) :
    retryAux fn lastE (fuel + 1) attempt = (.ok (), as) := by
  simp only [retryAux, hfa]

theorem retryAux_step_conflict (fn : Nat → Except Err Unit × List Act)
    (lastE : Err) (fuel attempt : Nat) (msg : String) (as : List Act)
    (hfa : fn attempt = (.error (.conflict msg), as)) :
    retryAux fn lastE (fuel + 1) attempt
      = ((retryAux fn (.conflict msg) fuel (attempt + 1)).fst,
         as ++ (retryAux fn (.conflict msg) fuel (attempt + 1)).snd) := by
  simp only [retryAux, hfa, Err.isConflict]
  simp

theorem retryAux_step_other (fn : Nat → Except Err Unit × List Act)
    (lastE : Err) (fuel attempt : Nat) (e : Err) (as : List Act)
    (hfa : fn attempt = (.error e, as)) (hnc : e.isConflict = false) :
    retryAux fn lastE (fuel + 1) attempt = (.error e, as) := by
  simp only [retryAux, hfa, hnc]
  simp

theorem retryAux_fst_ok (fn : Nat → Except Err Unit × List Act) :
    ∀ (fuel N attempt : Nat) (lastE : Err), 1 ≤ N → N ≤ fuel →
    (∀ i, i < N - 1 → ∃ s, (fn (attempt + i)).fst = .error (.conflict s)) →
    (fn (attempt + (N - 1))).fst = .ok () →
    (retryAux fn lastE fuel attempt).fst = .ok () := by
  intro fuel
  induction fuel with
  | zero => intro N attempt lastE h1 h2 _ _; omega
  | succ k ih =>
    intro N attempt lastE h1 _ hconf hsucc
    rcases hfa : fn attempt with ⟨res, as⟩
    by_cases hN : N = 1
    · subst hN
      simp only [Nat.sub_self, Nat.add_zero] at hsucc
      rw [hfa] at hsucc
      simp only at hsucc
      subst hsucc
      simp [retryAux, hfa]
    · obtain ⟨s0, h0⟩ := hconf 0 (by omega)
      simp only [Nat.add_zero] at h0
      rw [hfa] at h0
      simp only at h0
      subst h0
      simp only [retryAux, hfa, Err.isConflict]
      apply ih (N - 1) (attempt + 1)
      · omega
      · omega
      · intro i hi
        obtain ⟨s', hs'⟩ := hconf (i + 1) (by omega)
        refine ⟨s', ?_⟩
        have he : attempt + 1 + i = attempt + (i + 1) := by omega
        rw [he]; exact hs'
      · have he : attempt + 1 + (N - 1 - 1) = attempt + (N - 1) := by omega
        rw [he]; exact hsucc

theorem retryAux_fst_exhaust (fn : Nat → Except Err Unit × List Act)
    (s : Nat → String) :
    ∀ (fuel attempt : Nat) (lastE : Err), 1 ≤ fuel →
    (∀ i, i < fuel → (fn (attempt + i)).fst = .error (.conflict (s (attempt + i)))) →
    (retryAux fn lastE fuel attempt).fst
      = .error (.conflict (s (attempt + (fuel - 1)))) := by
  intro fuel
  induction fuel with
  | zero => intro attempt lastE h1 _; omega
  | succ k ih =>
    intro attempt lastE _ hconf
    have h0 := hconf 0 (by omega)
    simp only [Nat.add_zero] at h0
    rcases hfa : fn attempt with ⟨res, as⟩
    rw [hfa] at h0
    simp only at h0
    subst h0
    rw [retryAux_step_conflict fn lastE k attempt (s attempt) as hfa]
    cases k with
    | zero =>
      simp [retryAux]
    | succ k' =>
      have hr := ih (attempt + 1) (.conflict (s attempt)) (by omega) ?_
      · simp only [hr]
        have he : attempt + 1 + (k' + 1 - 1) = attempt + (k' + 1 + 1 - 1) := by omega
        rw [he]
      · intro i hi
        have he : attempt + 1 + i = attempt + (i + 1) := by omega
        rw [he]
        exact hconf (i + 1) (by omega)

theorem retryOnConflict_nonconflict (fn : Nat → Except Err Unit × List Act)
    (e : Err) (he : (fn 0).fst = .error e) (hnc : e.isConflict = false) :
    retryOnConflict fn = (.error e, (fn 0).snd) := by
  rcases hfa : fn 0 with ⟨res, as⟩
  rw [hfa] at he
  simp only at he
  subst he
  simp [retryOnConflict, retryAux, hfa, hnc]

theorem retryAux_snd_head (fn : Nat → Except Err Unit × List Act)
    (lastE : Err) (fuel attempt : Nat) :
    ∃ t, (retryAux fn lastE (fuel + 1) attempt).snd = (fn attempt).snd ++ t := by
  rcases hfa : fn attempt with ⟨res, as⟩
  cases res with
  | ok u =>
    exact ⟨[], by simp [retryAux, hfa]⟩
  | error e =>
    by_cases hc : e.isConflict
    · exact ⟨(retryAux fn e fuel (attempt + 1)).snd, by simp [retryAux, hfa, hc]⟩
    · exact ⟨[], by simp [retryAux, hfa, hc]⟩

theorem retryOnConflict_snd_head (fn : Nat → Except Err Unit × List Act) :
    ∃ t, (retryOnConflict fn).snd = (fn 0).snd ++ t :=
  retryAux_snd_head fn _ 4 0

theorem retryAux_snd_mem (fn : Nat → Except Err Unit × List Act) :
    ∀ (fuel attempt : Nat) (lastE : Err) (a : Act),
    a ∈ (retryAux fn lastE fuel attempt).snd → ∃ i, a ∈ (fn i).snd := by
  intro fuel
  induction fuel with
  | zero => intro attempt lastE a h; simp [retryAux] at h
  | succ k ih =>
    intro attempt lastE a h
    rcases hfa : fn attempt with ⟨res, as⟩
    cases res with
    | ok u =>
      simp only [retryAux, hfa] at h
      exact ⟨attempt, by rw [hfa]; exact h⟩
    | error e =>
      by_cases hc : e.isConflict
      · simp only [retryAux, hfa, hc] at h
        rcases List.mem_append.mp h with h1 | h2
        · exact ⟨attempt, by rw [hfa]; exact h1⟩
        · exact ih (attempt + 1) e a h2
      · simp only [retryAux, hfa, hc] at h
        exact ⟨attempt, by rw [hfa]; exact h⟩

theorem retryOnConflict_snd_mem (fn : Nat → Except Err Unit × List Act)
    (a : Act) (h : a ∈ (retryOnConflict fn).snd) : ∃ i, a ∈ (fn i).snd :=
  retryAux_snd_mem fn 5 0 _ a h

/-! ## Helper lemmas about the individual stages -/

theorem getBranchURLStatus_snd_lookups (http : String → Except String Nat)
    (url : String) (a : Act) (h : a ∈ (getBranchURLStatus http url).snd) :
    a.isLookup = true := by
  rcases hm : findBranchURLMatch url.data with _ | ⟨o, r, b⟩
  · simp [getBranchURLStatus, hm] at h
  · rcases hh : http ("https://api.github.com/repos/" ++ o ++ "/" ++ r ++ "/branches/" ++ b)
        with e | st <;>
      simp [getBranchURLStatus, hm, hh] at h <;> subst h <;> rfl

/-- When the URL annotation is present, the branch stage's trace is
exactly the trace of `getBranchURLStatus`, whatever the outcome. -/
theorem branchStage_snd_of_url (http : String → Except String Nat)
    (ns : K8sNamespace) (url : String) (hg : GithubSourceURL ns = .ok url) :
    (branchStage http ns).snd = (getBranchURLStatus http url).snd := by
  rcases hb : getBranchURLStatus http url with ⟨res, as⟩
  rcases res with v | m
  · rcases v with e' | st
    · simp [branchStage, hg, hb]
    · by_cases h4 : st = 404
      · subst h4; simp [branchStage, hg, hb]
      · simp [branchStage, hg, hb, h4]
  · simp [branchStage, hg, hb]

theorem branchStage_snd_lookups (http : String → Except String Nat)
    (ns : K8sNamespace) (a : Act) (h : a ∈ (branchStage http ns).snd) :
    a.isLookup = true := by
  rcases hg : GithubSourceURL ns with e | url
  · simp [branchStage, hg] at h
  · rw [branchStage_snd_of_url http ns url hg] at h
    exact getBranchURLStatus_snd_lookups http url a h

theorem branchStage_status (http : String → Except String Nat)
    (ns : K8sNamespace) (url : String) (st : Nat)
    (hurl : GithubSourceURL ns = .ok url)
    (hstat : (getBranchURLStatus http url).fst = .ok (.ok st)) :
    branchStage http ns
      = (.ok (st = 404 : Bool), (getBranchURLStatus http url).snd) := by
  rcases hb : getBranchURLStatus http url with ⟨res, as⟩
  rw [hb] at hstat
  simp only at hstat
  subst hstat
  by_cases h4 : st = 404
  · subst h4; simp [branchStage, hurl, hb]
  · simp [branchStage, hurl, hb, h4]

theorem DeleteRelease_snd_head (w : HelmWorld) (rel : String) :
    ∃ t, (DeleteRelease w rel).snd = Act.releaseTerminate rel :: t := by
  rcases w with ⟨t, p, st, d⟩
  rcases t with e | ⟨⟩
  · exact ⟨[], rfl⟩
  rcases p with e' | ⟨⟩
  · exact ⟨[], rfl⟩
  rcases st with e'' | code
  · exact ⟨[Act.helmStatusCheck rel], rfl⟩
  rcases code
  · exact ⟨[Act.helmStatusCheck rel], rfl⟩
  · exact ⟨[Act.helmStatusCheck rel], rfl⟩
  · rcases d with e''' | ⟨⟩
    · exact ⟨[Act.helmStatusCheck rel, Act.helmDelete rel], rfl⟩
    · exact ⟨[Act.helmStatusCheck rel, Act.helmDelete rel], rfl⟩

theorem DeleteRelease_snd_helmActs (w : HelmWorld) (rel : String) (a : Act)
    (h : a ∈ (DeleteRelease w rel).snd) : a.isHelmAct = true := by
  rcases w with ⟨t, p, st, d⟩
  rcases t with e | ⟨⟩
  · simp [DeleteRelease] at h; subst h; rfl
  rcases p with e' | ⟨⟩
  · simp [DeleteRelease] at h; subst h; rfl
  rcases st with e'' | code
  · simp [DeleteRelease] at h; rcases h with h | h <;> subst h <;> rfl
  rcases code
  · simp [DeleteRelease] at h; rcases h with h | h <;> subst h <;> rfl
  · simp [DeleteRelease] at h; rcases h with h | h <;> subst h <;> rfl
  · rcases d with e''' | ⟨⟩ <;> simp [DeleteRelease] at h <;>
      rcases h with h | h | h <;> subst h <;> rfl

theorem DeleteRelease_gone (w : HelmWorld) (rel : String)
    (ht : w.tunnel = .ok ()) (hp : w.ping = .ok ()) (hg : releaseGone w.status) :
    DeleteRelease w rel
      = (.ok (), [Act.releaseTerminate rel, Act.helmStatusCheck rel]) := by
  rcases w with ⟨t, p, st, d⟩
  simp only at ht hp
  subst ht; subst hp
  rcases hg with ⟨e, he⟩ | he | he <;> simp only at he <;> subst he <;>
    simp [DeleteRelease]

theorem DeleteRelease_statusCheck_first (w : HelmWorld) (rel r' : String)
    (j : Nat) (h : (DeleteRelease w rel).snd[j]? = some (Act.helmDelete r')) :
    ∃ i, i < j ∧ (DeleteRelease w rel).snd[i]? = some (Act.helmStatusCheck r') := by
  rcases w with ⟨t, p, st, d⟩
  rcases t with e | ⟨⟩
  · exfalso; rcases j with _ | j' <;> simp [DeleteRelease] at h
  rcases p with e' | ⟨⟩
  · exfalso; rcases j with _ | j' <;> simp [DeleteRelease] at h
  rcases st with e'' | code
  · exfalso; rcases j with _ | _ | j' <;> simp [DeleteRelease] at h
  rcases code
  · exfalso; rcases j with _ | _ | j' <;> simp [DeleteRelease] at h
  · exfalso; rcases j with _ | _ | j' <;> simp [DeleteRelease] at h
  · rcases d with e''' | ⟨⟩ <;>
      (rcases j with _ | _ | _ | j' <;> simp [DeleteRelease] at h <;>
        exact ⟨1, by omega, by simp [DeleteRelease, h]⟩)

theorem helmStage_snd_eq (worlds : Nat → HelmWorld) (ns : K8sNamespace) :
    (helmStage worlds ns).snd = (retryOnConflict (helmStageFn worlds ns)).snd := by
  rcases hr : retryOnConflict (helmStageFn worlds ns) with ⟨res, as⟩
  rcases res with u | e <;> simp [helmStage, hr]

theorem helmStage_fst_iff (worlds : Nat → HelmWorld) (ns : K8sNamespace) :
    (helmStage worlds ns).fst = true
      ↔ (retryOnConflict (helmStageFn worlds ns)).fst = .ok () := by
  rcases hr : retryOnConflict (helmStageFn worlds ns) with ⟨res, as⟩
  rcases res with ⟨⟩ | e <;> simp [helmStage, hr]

theorem nsStage_snd_eq (worlds : Nat → NsWorld) (name : String) :
    (nsStage worlds name).snd = (retryOnConflict (nsStageFn worlds name)).snd := by
  rcases hr : retryOnConflict (nsStageFn worlds name) with ⟨res, as⟩
  rcases res with u | e <;> simp [nsStage, hr]

theorem nsStage_fst_iff (worlds : Nat → NsWorld) (name : String) :
    (nsStage worlds name).fst = true
      ↔ (retryOnConflict (nsStageFn worlds name)).fst = .ok () := by
  rcases hr : retryOnConflict (nsStageFn worlds name) with ⟨res, as⟩
  rcases res with ⟨⟩ | e <;> simp [nsStage, hr]

/-- A namespace without the `helm-release` annotation passes the
release stage untouched: the attempt body returns `nil` on the first
attempt and no Helm call is made. -/
theorem helmStage_skip (worlds : Nat → HelmWorld) (ns : K8sNamespace)
    (h : lookupAnnot ns.annots helmReleaseAnnotKey = none) :
    helmStage worlds ns = (true, []) := by
  have hfn : helmStageFn worlds ns 0 = (.ok (), []) := by
    simp [helmStageFn, HelmRelease, h]
  have h5 : (5 : Nat) = 4 + 1 := rfl
  have hr : retryOnConflict (helmStageFn worlds ns) = (.ok (), []) := by
    rw [retryOnConflict, h5]
    exact retryAux_step_ok _ _ 4 0 () [] hfn
  simp [helmStage, hr]

/-- A namespace with the `helm-release` annotation set to `rel` causes an
invocation of `helm.DeleteRelease(rel, ...)` in the release stage. -/
theorem helmStage_relTerm_of_annot (worlds : Nat → HelmWorld)
    (ns : K8sNamespace) (rel : String) (h : HelmRelease ns = .ok rel) :
    Act.releaseTerminate rel ∈ (helmStage worlds ns).snd := by
  rw [helmStage_snd_eq]
  obtain ⟨t, ht⟩ := retryOnConflict_snd_head (helmStageFn worlds ns)
  rw [ht]
  have hfn : (helmStageFn worlds ns 0).snd = (DeleteRelease (worlds 0) rel).snd := by
    simp [helmStageFn, h]
  rw [hfn]
  obtain ⟨t', ht'⟩ := DeleteRelease_snd_head (worlds 0) rel
  rw [ht']
  simp

theorem helmStage_snd_helmActs (worlds : Nat → HelmWorld) (ns : K8sNamespace)
    (a : Act) (h : a ∈ (helmStage worlds ns).snd) : a.isHelmAct = true := by
  rw [helmStage_snd_eq] at h
  obtain ⟨i, hi⟩ := retryOnConflict_snd_mem _ a h
  rcases hrel : HelmRelease ns with e | rel
  · simp [helmStageFn, hrel] at hi
  · rw [show helmStageFn worlds ns i = DeleteRelease (worlds i) rel by
        simp [helmStageFn, hrel]] at hi
    exact DeleteRelease_snd_helmActs (worlds i) rel a hi

theorem nsStageFn_shape (worlds : Nat → NsWorld) (name : String) (att : Nat) :
    (nsStageFn worlds name att).snd = [Act.nsGet name]
      ∨ (nsStageFn worlds name att).snd = [Act.nsGet name, Act.nsDelete name] := by
  rcases hg : (worlds att).get with e | ph
  · left; simp [nsStageFn, hg]
  · by_cases hph : ph = Phase.terminating
    · subst hph; left; simp [nsStageFn, hg]
    · rcases hd : (worlds att).delete with e' | ⟨⟩ <;>
        (right; simp [nsStageFn, hg, hph, hd])

/-- When the pre-delete re-fetch reports the namespace absent or already
`Terminating` on the first attempt, the stage succeeds immediately with
only the `Get` call in its trace. -/
theorem nsStage_gone (worlds : Nat → NsWorld) (name : String)
    (h : nsGone (worlds 0).get) :
    nsStage worlds name = (true, [Act.nsGet name]) := by
  have hfn : nsStageFn worlds name 0 = (.ok (), [Act.nsGet name]) := by
    rcases h with ⟨e, he⟩ | he <;> simp [nsStageFn, he]
  have h5 : (5 : Nat) = 4 + 1 := rfl
  have hr : retryOnConflict (nsStageFn worlds name) = (.ok (), [Act.nsGet name]) := by
    rw [retryOnConflict, h5]
    exact retryAux_step_ok _ _ 4 0 () _ hfn
  simp [nsStage, hr]

/-- A `Delete` call is issued in an attempt only when that attempt's
re-fetch returned a present namespace whose phase is not `Terminating`. -/
theorem nsStageFn_delete_live (worlds : Nat → NsWorld) (name : String)
    (att : Nat) (n : String)
    (h : Act.nsDelete n ∈ (nsStageFn worlds name att).snd) :
    ∃ ph, (worlds att).get = .ok ph ∧ ph ≠ Phase.terminating := by
  rcases hg : (worlds att).get with e | ph
  · simp [nsStageFn, hg] at h
  · by_cases hph : ph = Phase.terminating
    · subst hph; simp [nsStageFn, hg] at h
    · exact ⟨ph, rfl, hph⟩

theorem nsStage_snd_mem (worlds : Nat → NsWorld) (name : String) (a : Act)
    (h : a ∈ (nsStage worlds name).snd) :
    a = Act.nsGet name ∨ a = Act.nsDelete name := by
  rw [nsStage_snd_eq] at h
  obtain ⟨i, hi⟩ := retryOnConflict_snd_mem _ a h
  rcases nsStageFn_shape worlds name i with hs | hs <;> rw [hs] at hi <;>
    simp at hi
  · exact Or.inl hi
  · exact hi

theorem nsStage_snd_nsActs (worlds : Nat → NsWorld) (name : String) (a : Act)
    (h : a ∈ (nsStage worlds name).snd) : a.isNsAct = true := by
  rcases nsStage_snd_mem worlds name a h with h' | h' <;> subst h' <;> rfl

/-! ## The re-fetch-before-delete discipline -/

theorem GBD_nil (name : String) : GetBeforeDelete name [] := by
  intro j n h; simp at h

theorem GBD_get_block (name : String) :
    GetBeforeDelete name [Act.nsGet name] := by
  intro j n h
  rcases j with _ | j' <;> simp at h

theorem GBD_getdel_block (name : String) :
    GetBeforeDelete name [Act.nsGet name, Act.nsDelete name] := by
  intro j n h
  rcases j with _ | _ | j' <;> simp at h
  exact ⟨by omega, by simp⟩

theorem GBD_append (name : String) (l₁ l₂ : List Act)
    (h₁ : GetBeforeDelete name l₁) (h₂ : GetBeforeDelete name l₂) :
    GetBeforeDelete name (l₁ ++ l₂) := by
  intro j n h
  rw [List.getElem?_append] at h
  by_cases hj : j < l₁.length
  · rw [if_pos hj] at h
    obtain ⟨hpos, hget⟩ := h₁ j n h
    refine ⟨hpos, ?_⟩
    rw [List.getElem?_append, if_pos (by omega)]
    exact hget
  · rw [if_neg hj] at h
    obtain ⟨hpos, hget⟩ := h₂ (j - l₁.length) n h
    refine ⟨by omega, ?_⟩
    rw [List.getElem?_append, if_neg (by omega)]
    have he : j - 1 - l₁.length = j - l₁.length - 1 := by omega
    rw [he]
    exact hget

theorem retryAux_GBD (fn : Nat → Except Err Unit × List Act) (name : String)
    (hfn : ∀ att, GetBeforeDelete name (fn att).snd) :
    ∀ (fuel attempt : Nat) (lastE : Err),
      GetBeforeDelete name (retryAux fn lastE fuel attempt).snd := by
  intro fuel
  induction fuel with
  | zero =>
    intro attempt lastE
    have hs : (retryAux fn lastE 0 attempt).snd = [] := rfl
    rw [hs]
    exact GBD_nil name
  | succ k ih =>
    intro attempt lastE
    rcases hfa : fn attempt with ⟨res, as⟩
    have has : GetBeforeDelete name as := by
      have hh := hfn attempt
      rw [hfa] at hh
      exact hh
    cases res with
    | ok u =>
      rw [retryAux_step_ok fn lastE k attempt u as hfa]
      exact has
    | error e =>
      cases e with
      | conflict msg =>
        rw [retryAux_step_conflict fn lastE k attempt msg as hfa]
        exact GBD_append name as _ has (ih (attempt + 1) _)
      | other msg =>
        rw [retryAux_step_other fn lastE k attempt (.other msg) as hfa rfl]
        exact has

theorem nsStage_getBeforeDelete (worlds : Nat → NsWorld) (name : String) :
    GetBeforeDelete name (nsStage worlds name).snd := by
  rw [nsStage_snd_eq]
  have hfn : ∀ att, GetBeforeDelete name (nsStageFn worlds name att).snd := by
    intro att
    rcases nsStageFn_shape worlds name att with hs | hs <;> rw [hs]
    · exact GBD_get_block name
    · exact GBD_getdel_block name
  simp only [retryOnConflict]
  exact retryAux_GBD _ name hfn 5 0 _

/-! ## Per-namespace chain composition -/

theorem chain_branch_nonpass (w : World) (ns : K8sNamespace) (as : List Act)
    (h : branchStage w.http ns = (.ok false, as)) :
    processNamespaceChain w ns = (.ok false, as) := by
  simp [processNamespaceChain, h]

theorem chain_branch_panic (w : World) (ns : K8sNamespace) (m : String)
    (as : List Act) (h : branchStage w.http ns = (.panic m, as)) :
    processNamespaceChain w ns = (.panic m, as) := by
  simp [processNamespaceChain, h]

theorem chain_helm_fail (w : World) (ns : K8sNamespace) (as1 as2 : List Act)
    (hb : branchStage w.http ns = (.ok true, as1))
    (hh : helmStage w.helmW ns = (false, as2)) :
    processNamespaceChain w ns = (.ok false, as1 ++ as2) := by
  simp [processNamespaceChain, hb, hh]

theorem chain_full (w : World) (ns : K8sNamespace) (as1 as2 as3 : List Act)
    (b3 : Bool)
    (hb : branchStage w.http ns = (.ok true, as1))
    (hh : helmStage w.helmW ns = (true, as2))
    (hn : nsStage w.k8sW ns.name = (b3, as3)) :
    processNamespaceChain w ns = (.ok b3, as1 ++ (as2 ++ as3)) := by
  simp [processNamespaceChain, hb, hh, hn]

theorem isLookup_not_term (a : Act) (h : a.isLookup = true) :
    a.isHelmAct = false ∧ a.isNsAct = false := by
  cases a <;> simp_all [Act.isLookup, Act.isHelmAct, Act.isNsAct]

theorem isHelmAct_not_other (a : Act) (h : a.isHelmAct = true) :
    a.isNsAct = false ∧ a.isLookup = false := by
  cases a <;> simp_all [Act.isLookup, Act.isHelmAct, Act.isNsAct]

theorem isNsAct_not_other (a : Act) (h : a.isNsAct = true) :
    a.isHelmAct = false ∧ a.isLookup = false := by
  cases a <;> simp_all [Act.isLookup, Act.isHelmAct, Act.isNsAct]

theorem mem_of_getIdx {α : Type} (l : List α) (n : Nat) (a : α)
    (h : l[n]? = some a) : a ∈ l := by
  obtain ⟨hlt, he⟩ := List.getElem?_eq_some_iff.mp h
  exact he ▸ List.getElem_mem hlt

/-- The namespace stage always performs its re-fetch at least once. -/
theorem nsStage_nsGet_mem (worlds : Nat → NsWorld) (name : String) :
    Act.nsGet name ∈ (nsStage worlds name).snd := by
  rw [nsStage_snd_eq]
  obtain ⟨t, ht⟩ := retryOnConflict_snd_head (nsStageFn worlds name)
  rw [ht]
  rcases nsStageFn_shape worlds name 0 with hs | hs <;> rw [hs] <;> simp

/-! ## Process-fate lemmas -/

theorem firstWorkerPanic_none (w : World) :
    ∀ nss : List K8sNamespace,
      (∀ ns ∈ nss, (processNamespaceChain w ns).fst.isPanic = false) →
      firstWorkerPanic w nss = none := by
  intro nss
  induction nss with
  | nil => intro _; rfl
  | cons ns rest ih =>
    intro h
    have h0 := h ns (by simp)
    rcases hp : (processNamespaceChain w ns).fst with v | m
    · simp only [firstWorkerPanic, hp]
      exact ih (fun x hx => h x (by simp [hx]))
    · rw [hp] at h0
      simp [GoOutcome.isPanic] at h0

theorem firstWorkerPanic_some (w : World) :
    ∀ (nss : List K8sNamespace) (ns : K8sNamespace) (m : String),
      ns ∈ nss → (processNamespaceChain w ns).fst = .panic m →
      ∃ m2, firstWorkerPanic w nss = some m2 := by
  intro nss
  induction nss with
  | nil => intro ns m h _; simp at h
  | cons hd rest ih =>
    intro ns m hmem hpanic
    rcases hp : (processNamespaceChain w hd).fst with v | m'
    · simp only [firstWorkerPanic, hp]
      rcases List.mem_cons.mp hmem with he | ht
      · subst he
        rw [hp] at hpanic
        simp at hpanic
      · exact ih ns m ht hpanic
    · exact ⟨m', by simp [firstWorkerPanic, hp]⟩

/-! ## Claim theorems -/

/-- C1: for every namespace whose branch-check returns any HTTP status
other than 404 (success statuses included), the run performs no
termination action on it: the namespace is dropped by the branch stage,
and its whole run trace consists of the GitHub lookup only — no Helm
call and no Kubernetes get/delete touches the namespace or its
release. -/
theorem C1_non404_untouched (w : World) (ns : K8sNamespace) (url : String)
    (st : Nat) (hurl : GithubSourceURL ns = .ok url)
    (hstat : (getBranchURLStatus w.http url).fst = .ok (.ok st))
    (h404 : st ≠ 404) :
    (processNamespaceChain w ns).fst = .ok false ∧
    ∀ a ∈ (processNamespaceChain w ns).snd,
      a.isLookup = true ∧ a.isHelmAct = false ∧ a.isNsAct = false := by
  have hb := branchStage_status w.http ns url st hurl hstat
  have hbf : branchStage w.http ns
      = (.ok false, (getBranchURLStatus w.http url).snd) := by
    rw [hb]
    simp [h404]
  have hc := chain_branch_nonpass w ns _ hbf
  refine ⟨by rw [hc], ?_⟩
  intro a ha
  rw [hc] at ha
  have hl := getBranchURLStatus_snd_lookups w.http url a ha
  exact ⟨hl, isLookup_not_term a hl⟩

/-- Witness for C1: the spec's concrete 200-status scenario — branch
still present, nothing touched. -/
theorem C1_witness :
    (processNamespaceChain wAll200 nsFoo).fst = .ok false ∧
    ∀ a ∈ (processNamespaceChain wAll200 nsFoo).snd,
      a.isLookup = true ∧ a.isHelmAct = false ∧ a.isNsAct = false :=
  C1_non404_untouched wAll200 nsFoo "https://github.com/acme/foo/tree/issue-1"
    200 rfl rfl (by decide)

/-- C3: a namespace with a deleted branch (404) but no helm-release
annotation skips the release-termination stage without failure — the
stage passes with an empty trace — and namespace-termination is still
attempted in the same run (its re-fetch appears in the run trace). -/
theorem C3_skip_release (w : World) (ns : K8sNamespace) (url : String)
    (hurl : GithubSourceURL ns = .ok url)
    (hstat : (getBranchURLStatus w.http url).fst = .ok (.ok 404))
    (hrel : lookupAnnot ns.annots helmReleaseAnnotKey = none) :
    helmStage w.helmW ns = (true, []) ∧
    Act.nsGet ns.name ∈ (processNamespaceChain w ns).snd := by
  have hbs := branchStage_status w.http ns url 404 hurl hstat
  have hbt : branchStage w.http ns
      = (.ok true, (getBranchURLStatus w.http url).snd) := by
    rw [hbs]
    simp
  have hh := helmStage_skip w.helmW ns hrel
  rcases hn : nsStage w.k8sW ns.name with ⟨b3, as3⟩
  have hc := chain_full w ns _ [] as3 b3 hbt hh hn
  refine ⟨hh, ?_⟩
  rw [hc]
  have hmem := nsStage_nsGet_mem w.k8sW ns.name
  rw [hn] at hmem
  simp only [List.nil_append]
  exact List.mem_append.mpr (Or.inr hmem)

/-- Witness for C3: the spec's concrete scenario without the
helm-release annotation, branch deleted. -/
theorem C3_witness :
    helmStage wAll404.helmW nsNoRel = (true, []) ∧
    Act.nsGet nsNoRel.name ∈ (processNamespaceChain wAll404 nsNoRel).snd :=
  C3_skip_release wAll404 nsNoRel "https://github.com/acme/foo/tree/issue-1"
    rfl rfl rfl

/-- C6: the namespace terminator re-fetches the namespace immediately
before every delete (in every trace each `nsDelete` is directly preceded
by the `nsGet` re-fetch); when the re-fetch finds the namespace absent or
already `Terminating` it returns success without any delete call; and a
delete call is issued in an attempt only when that attempt's re-fetch
returned a present, non-Terminating namespace. -/
theorem C6_refetch_before_delete (worlds : Nat → NsWorld) (name : String) :
    (nsGone (worlds 0).get → nsStage worlds name = (true, [Act.nsGet name])) ∧
    GetBeforeDelete name (nsStage worlds name).snd ∧
    (∀ att n, Act.nsDelete n ∈ (nsStageFn worlds name att).snd →
      ∃ ph, (worlds att).get = .ok ph ∧ ph ≠ Phase.terminating) :=
  ⟨fun h => nsStage_gone worlds name h,
   nsStage_getBeforeDelete worlds name,
   fun att n h => nsStageFn_delete_live worlds name att n h⟩

/-- Witness for C6: a store reporting the namespace as `Terminating`. -/
theorem C6_witness :
    nsStage k8sWTerm "dev-foo-issue-1" = (true, [Act.nsGet "dev-foo-issue-1"]) :=
  (C6_refetch_before_delete k8sWTerm "dev-foo-issue-1").1 (Or.inr rfl)

/-- C7: release-termination checks status before deleting (in every
`DeleteRelease` trace the status check strictly precedes any delete
call); on an absent or already deleted/deleting release it succeeds with
no delete side effect, so two invocations on such a target both succeed
and neither trace contains a delete; the namespace terminator behaves the
same on an absent/terminating namespace. -/
theorem C7_idempotent (w₁ w₂ : HelmWorld) (rel : String)
    (n₁ n₂ : Nat → NsWorld) (name : String)
    (ht₁ : w₁.tunnel = .ok ()) (hp₁ : w₁.ping = .ok ()) (hg₁ : releaseGone w₁.status)
    (ht₂ : w₂.tunnel = .ok ()) (hp₂ : w₂.ping = .ok ()) (hg₂ : releaseGone w₂.status)
    (hn₁ : nsGone (n₁ 0).get) (hn₂ : nsGone (n₂ 0).get) :
    DeleteRelease w₁ rel
      = (.ok (), [Act.releaseTerminate rel, Act.helmStatusCheck rel]) ∧
    DeleteRelease w₂ rel
      = (.ok (), [Act.releaseTerminate rel, Act.helmStatusCheck rel]) ∧
    (∀ (w : HelmWorld) (r' : String) (j : Nat),
      (DeleteRelease w r').snd[j]? = some (Act.helmDelete r') →
      ∃ i, i < j ∧ (DeleteRelease w r').snd[i]? = some (Act.helmStatusCheck r')) ∧
    nsStage n₁ name = (true, [Act.nsGet name]) ∧
    nsStage n₂ name = (true, [Act.nsGet name]) :=
  ⟨DeleteRelease_gone w₁ rel ht₁ hp₁ hg₁,
   DeleteRelease_gone w₂ rel ht₂ hp₂ hg₂,
   fun w r' j h => DeleteRelease_statusCheck_first w r' r' j h,
   nsStage_gone n₁ name hn₁,
   nsStage_gone n₂ name hn₂⟩

/-- Witness for C7: an unknown release deleted twice, a terminating and
an unreachable namespace each terminated once. -/
theorem C7_witness :
    DeleteRelease (helmWGone 0) "dev-foo-issue-1"
      = (.ok (), [Act.releaseTerminate "dev-foo-issue-1",
                  Act.helmStatusCheck "dev-foo-issue-1"]) ∧
    DeleteRelease (helmWGone 1) "dev-foo-issue-1"
      = (.ok (), [Act.releaseTerminate "dev-foo-issue-1",
                  Act.helmStatusCheck "dev-foo-issue-1"]) ∧
    (∀ (w : HelmWorld) (r' : String) (j : Nat),
      (DeleteRelease w r').snd[j]? = some (Act.helmDelete r') →
      ∃ i, i < j ∧ (DeleteRelease w r').snd[i]? = some (Act.helmStatusCheck r')) ∧
    nsStage k8sWTerm "dev-foo-issue-1"
      = (true, [Act.nsGet "dev-foo-issue-1"]) ∧
    nsStage k8sWErr "dev-foo-issue-1"
      = (true, [Act.nsGet "dev-foo-issue-1"]) :=
  C7_idempotent (helmWGone 0) (helmWGone 1) "dev-foo-issue-1" k8sWTerm k8sWErr
    "dev-foo-issue-1" rfl rfl (Or.inl ⟨.other "release not found", rfl⟩)
    rfl rfl (Or.inl ⟨.other "release not found", rfl⟩)
    (Or.inr rfl) (Or.inl ⟨.other "i/o timeout", rfl⟩)

/-- C10 (implicit): in the namespace terminator, *every* error of the
pre-delete re-fetch — not only a not-found signal, e.g. also a transient
transport failure — is treated as success: the attempt body returns
`nil` with no delete call, so no error ever reaches the retry wrapper
and the stage reports success for the namespace. -/
theorem C10_get_error_success (worlds : Nat → NsWorld) (name : String)
    (e : Err) (h : (worlds 0).get = .error e) :
    nsStageFn worlds name 0 = (.ok (), [Act.nsGet name]) ∧
    nsStage worlds name = (true, [Act.nsGet name]) :=
  ⟨by simp [nsStageFn, h], nsStage_gone worlds name (Or.inl ⟨e, h⟩)⟩

/-- The retry wrapper reports success when the attempt body conflicts on
the first N−1 attempts and succeeds on attempt N, for N within the
ceiling. -/
theorem retryOnConflict_ok_of_seq (fn : Nat → Except Err Unit × List Act)
    (N : Nat) (h1 : 1 ≤ N) (h5 : N ≤ 5)
    (hconf : ∀ i, i < N - 1 → ∃ s, (fn i).fst = .error (.conflict s))
    (hsucc : (fn (N - 1)).fst = .ok ()) :
    (retryOnConflict fn).fst = .ok () := by
  simp only [retryOnConflict]
  exact retryAux_fst_ok fn 5 N 0 _ h1 h5
    (fun i hi => by simpa using hconf i hi) (by simpa using hsucc)

/-- The retry wrapper returns the last conflict error after exhausting
all five attempts. -/
theorem retryOnConflict_exhaust_seq (fn : Nat → Except Err Unit × List Act)
    (s : Nat → String)
    (hconf : ∀ i, i < 5 → (fn i).fst = .error (.conflict (s i))) :
    (retryOnConflict fn).fst = .error (.conflict (s 4)) := by
  simp only [retryOnConflict]
  have h := retryAux_fst_exhaust fn s 5 0
    (Err.other "timed out waiting for the condition") (by omega)
    (fun i hi => by simpa using hconf i hi)
  simpa using h

/-- C5: for the retry-wrapped mutating operations — namespace-termination
in `filterNamespaceDeleted` and release-termination in
`filterHelmReleaseDeletedIfNeeded` — an attempt body that fails with a
conflict on each of its first N−1 attempts (N at most the DefaultRetry
ceiling of 5) and succeeds on attempt N yields overall stage success; a
conflict on every attempt up to the ceiling yields the last conflict
error (and the stage fails); and any non-conflict failure is returned
immediately, untried again, with only the first attempt's calls in the
trace. -/
theorem C5_conflict_retry (worlds : Nat → NsWorld) (name : String)
    (hw : Nat → HelmWorld) (ns : K8sNamespace) :
    (∀ N, 1 ≤ N → N ≤ 5 →
      (∀ i, i < N - 1 → ∃ s, (nsStageFn worlds name i).fst = .error (.conflict s)) →
      (nsStageFn worlds name (N - 1)).fst = .ok () →
      (nsStage worlds name).fst = true) ∧
    (∀ s : Nat → String,
      (∀ i, i < 5 → (nsStageFn worlds name i).fst = .error (.conflict (s i))) →
      (retryOnConflict (nsStageFn worlds name)).fst = .error (.conflict (s 4)) ∧
      (nsStage worlds name).fst = false) ∧
    (∀ e, (nsStageFn worlds name 0).fst = .error e → e.isConflict = false →
      retryOnConflict (nsStageFn worlds name)
        = (.error e, (nsStageFn worlds name 0).snd)) ∧
    (∀ N, 1 ≤ N → N ≤ 5 →
      (∀ i, i < N - 1 → ∃ s, (helmStageFn hw ns i).fst = .error (.conflict s)) →
      (helmStageFn hw ns (N - 1)).fst = .ok () →
      (helmStage hw ns).fst = true) ∧
    (∀ s : Nat → String,
      (∀ i, i < 5 → (helmStageFn hw ns i).fst = .error (.conflict (s i))) →
      (retryOnConflict (helmStageFn hw ns)).fst = .error (.conflict (s 4)) ∧
      (helmStage hw ns).fst = false) ∧
    (∀ e, (helmStageFn hw ns 0).fst = .error e → e.isConflict = false →
      retryOnConflict (helmStageFn hw ns)
        = (.error e, (helmStageFn hw ns 0).snd)) := by
  refine ⟨?_, ?_, ?_, ?_, ?_, ?_⟩
  · intro N h1 h5 hconf hsucc
    exact (nsStage_fst_iff worlds name).mpr
      (retryOnConflict_ok_of_seq _ N h1 h5 hconf hsucc)
  · intro s hconf
    have he := retryOnConflict_exhaust_seq _ s hconf
    refine ⟨he, ?_⟩
    rcases hb : (nsStage worlds name).fst with _ | _
    · rfl
    · have := (nsStage_fst_iff worlds name).mp hb
      rw [this] at he
      exact absurd he (by simp)
  · intro e he hnc
    exact retryOnConflict_nonconflict _ e he hnc
  · intro N h1 h5 hconf hsucc
    exact (helmStage_fst_iff hw ns).mpr
      (retryOnConflict_ok_of_seq _ N h1 h5 hconf hsucc)
  · intro s hconf
    have he := retryOnConflict_exhaust_seq _ s hconf
    refine ⟨he, ?_⟩
    rcases hb : (helmStage hw ns).fst with _ | _
    · rfl
    · have := (helmStage_fst_iff hw ns).mp hb
      rw [this] at he
      exact absurd he (by simp)
  · intro e he hnc
    exact retryOnConflict_nonconflict _ e he hnc

/-- Witness for C5: two conflicts then success passes the stage; five
conflicts yield the conflict error and fail the stage; a non-conflict
denial is returned at once. -/
theorem C5_witness :
    (nsStage k8sWConf2 "dev-foo-issue-1").fst = true ∧
    (retryOnConflict (nsStageFn k8sWConfAll "dev-foo-issue-1")).fst
      = .error (.conflict conflictMsg) ∧
    retryOnConflict (nsStageFn k8sWDenied "dev-foo-issue-1")
      = (.error (.other "forbidden"),
         (nsStageFn k8sWDenied "dev-foo-issue-1" 0).snd) :=
  ⟨(C5_conflict_retry k8sWConf2 "dev-foo-issue-1" helmWLive nsFoo).1 3
      (by omega) (by omega)
      (fun i hi => ⟨conflictMsg, by interval_cases i <;> rfl⟩) rfl,
   ((C5_conflict_retry k8sWConfAll "dev-foo-issue-1" helmWLive nsFoo).2.1
      (fun _ => conflictMsg)
      (fun i hi => by interval_cases i <;> rfl)).1,
   (C5_conflict_retry k8sWDenied "dev-foo-issue-1" helmWLive nsFoo).2.2.1
      (.other "forbidden") rfl rfl⟩

/-- Witness for C10: a store whose re-fetch fails with a transient
transport error. -/
theorem C10_witness :
    nsStageFn k8sWErr "dev-foo-issue-1" 0
      = (.ok (), [Act.nsGet "dev-foo-issue-1"]) ∧
    nsStage k8sWErr "dev-foo-issue-1"
      = (true, [Act.nsGet "dev-foo-issue-1"]) :=
  C10_get_error_success k8sWErr "dev-foo-issue-1" (.other "i/o timeout") rfl

/-- C2: for every namespace whose branch-check returns 404:
`helm.DeleteRelease` is invoked iff the helm-release annotation is
present; when the release stage fails, no namespace-termination action
(neither the re-fetch nor the delete) occurs for that namespace in that
run; and in the run's trace every release-termination invocation
strictly precedes every namespace delete — the release is always removed
before the namespace. -/
theorem C2_release_before_namespace (w : World) (ns : K8sNamespace)
    (url : String) (hurl : GithubSourceURL ns = .ok url)
    (hstat : (getBranchURLStatus w.http url).fst = .ok (.ok 404)) :
    (∀ rel, HelmRelease ns = .ok rel →
      Act.releaseTerminate rel ∈ (processNamespaceChain w ns).snd) ∧
    (lookupAnnot ns.annots helmReleaseAnnotKey = none →
      ∀ rel, Act.releaseTerminate rel ∉ (processNamespaceChain w ns).snd) ∧
    ((helmStage w.helmW ns).fst = false →
      ∀ a ∈ (processNamespaceChain w ns).snd, a.isNsAct = false) ∧
    (∀ (i j : Nat) (rel n : String),
      (processNamespaceChain w ns).snd[i]? = some (Act.releaseTerminate rel) →
      (processNamespaceChain w ns).snd[j]? = some (Act.nsDelete n) → i < j) := by
  have hbs := branchStage_status w.http ns url 404 hurl hstat
  have hbt : branchStage w.http ns
      = (.ok true, (getBranchURLStatus w.http url).snd) := by
    rw [hbs]
    simp
  set bs := (getBranchURLStatus w.http url).snd with hbsdef
  have hbsL : ∀ a ∈ bs, a.isLookup = true :=
    fun a ha => getBranchURLStatus_snd_lookups w.http url a ha
  rcases hh : helmStage w.helmW ns with ⟨bh, as2⟩
  have has2H : ∀ a ∈ as2, a.isHelmAct = true :=
    fun a ha => helmStage_snd_helmActs w.helmW ns a (by rw [hh]; exact ha)
  obtain ⟨rest, htr, hrestNs, hrest_empty⟩ :
      ∃ rest, (processNamespaceChain w ns).snd = bs ++ (as2 ++ rest) ∧
        (∀ a ∈ rest, a.isNsAct = true) ∧ (bh = false → rest = []) := by
    cases bh with
    | false =>
      refine ⟨[], ?_, by simp, fun _ => rfl⟩
      rw [chain_helm_fail w ns bs as2 hbt hh]
      simp
    | true =>
      rcases hn : nsStage w.k8sW ns.name with ⟨b3, as3⟩
      refine ⟨as3, by rw [chain_full w ns bs as2 as3 b3 hbt hh hn], ?_, by simp⟩
      intro a ha
      exact nsStage_snd_nsActs w.k8sW ns.name a (by rw [hn]; exact ha)
  refine ⟨?_, ?_, ?_, ?_⟩
  · intro rel hrel
    have hmem := helmStage_relTerm_of_annot w.helmW ns rel hrel
    rw [hh] at hmem
    rw [htr]
    exact List.mem_append.mpr (Or.inr (List.mem_append.mpr (Or.inl hmem)))
  · intro hnone rel hmem
    have hskip := helmStage_skip w.helmW ns hnone
    rw [hh] at hskip
    simp only [Prod.mk.injEq] at hskip
    rw [htr, hskip.2] at hmem
    rcases List.mem_append.mp hmem with h | h
    · have hl := hbsL _ h
      simp [Act.isLookup] at hl
    · rcases List.mem_append.mp h with h' | h'
      · simp at h'
      · have hl := hrestNs _ h'
        simp [Act.isNsAct] at hl
  · intro hfalse a ha
    have hbh : bh = false := hfalse
    rw [htr, hrest_empty hbh] at ha
    rcases List.mem_append.mp ha with h | h
    · exact (isLookup_not_term a (hbsL _ h)).2
    · rcases List.mem_append.mp h with h' | h'
      · exact (isHelmAct_not_other a (has2H _ h')).1
      · simp at h'
  · intro i j rel n hi hj
    rw [htr] at hi hj
    by_cases hi1 : i < bs.length
    · exfalso
      rw [List.getElem?_append, if_pos hi1] at hi
      have hl := hbsL _ (mem_of_getIdx _ _ _ hi)
      simp [Act.isLookup] at hl
    · rw [List.getElem?_append, if_neg hi1] at hi
      by_cases hi2 : i - bs.length < as2.length
      · by_cases hj1 : j < bs.length
        · exfalso
          rw [List.getElem?_append, if_pos hj1] at hj
          have hl := hbsL _ (mem_of_getIdx _ _ _ hj)
          simp [Act.isLookup] at hl
        · rw [List.getElem?_append, if_neg hj1] at hj
          by_cases hj2 : j - bs.length < as2.length
          · exfalso
            rw [List.getElem?_append, if_pos hj2] at hj
            have hl := has2H _ (mem_of_getIdx _ _ _ hj)
            simp [Act.isHelmAct] at hl
          · omega
      · exfalso
        rw [List.getElem?_append, if_neg hi2] at hi
        have hl := hrestNs _ (mem_of_getIdx _ _ _ hi)
        simp [Act.isNsAct] at hl

/-- Witness for C2: the spec's concrete 404 scenario — the annotated
release is passed to `helm.DeleteRelease`. -/
theorem C2_witness :
    Act.releaseTerminate "dev-foo-issue-1"
      ∈ (processNamespaceChain wAll404 nsFoo).snd :=
  (C2_release_before_namespace wAll404 nsFoo
      "https://github.com/acme/foo/tree/issue-1" rfl rfl).1 "dev-foo-issue-1" rfl

/-- C4 counterexample: the claim says no fault during a run (after a
successful startup) ever terminates the process.  But a transport-level
failure of the branch-check request panics inside the per-namespace
worker goroutine (see `getBranchURLStatus`), and that goroutine — spawned
by `go func(ns *namespace)` inside `filterWithDeletedBranches` — has no
`recover` of its own; Go's `recover` in the supervisor goroutine cannot
intercept a panic of another goroutine, so the runtime terminates the
process.  Concretely: one namespace with a well-formed URL annotation and
a downed transport crashes the run. -/
theorem C4_counterexample :
    runIteration wDown [nsFoo] = .crashedProcess nilDerefMsg := by decide

/-- C4 amended: a run whose workers raise no panic completes normally; a
panic raised inside a per-namespace worker goroutine is not caught at any
boundary and terminates the process; a fault raised in the supervisor
goroutine itself is recovered, converted to an error value and reported
on `errReport` (where the outer loop logs it and spawns a fresh
supervisor goroutine) — but since the start token consumed at the head of
the iteration is replenished only by the reschedule goroutine spawned
when an iteration *completes*, a mid-iteration supervisor panic leaves
the channels empty and the fresh supervisor goroutine parks on `<-start`
forever: the loop does not restart from discovery.  Restarting works only
through the normal completion path, which spawns the reschedule goroutine
whose pending send keeps the next turn unblocked. -/
theorem C4_fault_isolation (w : World) (nss : List K8sNamespace) :
    ((∀ ns ∈ nss, (processNamespaceChain w ns).fst.isPanic = false) →
      runIteration w nss = .completed) ∧
    (∀ ns ∈ nss, ∀ m, (processNamespaceChain w ns).fst = .panic m →
      ∃ m2, runIteration w nss = .crashedProcess m2) ∧
    (∀ (p : PanicPayload) (s : LoopState),
      s.startToken = true → s.reschedulePending = false →
      superviseTurn s (.panics p false)
        = .reported ⟨recoverToError p, ⟨false, false⟩⟩) ∧
    (∀ fate, superviseTurn ⟨false, false⟩ fate = .blockedForever) ∧
    (superviseTurn ⟨true, false⟩ .completes = .nextIteration ⟨false, true⟩ ∧
      ∀ fate, superviseTurn ⟨false, true⟩ fate ≠ .blockedForever) := by
  refine ⟨?_, ?_, ?_, ?_, ?_, ?_⟩
  · intro h
    simp [runIteration, firstWorkerPanic_none w nss h]
  · intro ns hmem m hp
    obtain ⟨m2, hm2⟩ := firstWorkerPanic_some w nss ns m hmem hp
    exact ⟨m2, by simp [runIteration, hm2]⟩
  · intro p s h1 h2
    simp [superviseTurn, consumePending, h1, h2]
  · intro fate
    simp [superviseTurn]
  · rfl
  · intro fate
    cases fate <;> simp [superviseTurn]

/-- Witness for the amended C4: a healthy world completes its run; a
worker panic crashes the process; a mid-iteration supervisor panic from
the running state is logged but leaves both channels empty, after which
every turn of the fresh supervisor goroutine blocks forever. -/
theorem C4_witness :
    runIteration wAll200 [nsFoo] = .completed ∧
    (∃ m2, runIteration wDown [nsNoRel] = .crashedProcess m2) ∧
    superviseTurn ⟨true, false⟩ (.panics (.errVal "listing namespaces failed") false)
      = .reported ⟨"listing namespaces failed", ⟨false, false⟩⟩ ∧
    superviseTurn ⟨false, false⟩ (.panics (.errVal "listing namespaces failed") false)
      = .blockedForever :=
  ⟨(C4_fault_isolation wAll200 [nsFoo]).1 (by decide),
   (C4_fault_isolation wDown [nsNoRel]).2.1 nsNoRel (by simp) nilDerefMsg rfl,
   (C4_fault_isolation wAll200 []).2.2.1 (.errVal "listing namespaces failed")
     ⟨true, false⟩ rfl rfl,
   (C4_fault_isolation wAll200 []).2.2.2.1
     (.panics (.errVal "listing namespaces failed") false)⟩

/-- C8 (code bug): the claim — and the spec — say a transport-level
failure of the branch-check HTTP request is returned as an error value
(a logged per-namespace stage abort).  The code of `cmd/main.go` instead
places `defer resp.Body.Close()` *before* the `if err != nil` check; on a
transport failure `resp` is nil, evaluating `resp.Body` for the deferred
call dereferences a nil pointer and the worker panics, so the explicit
transport-error return branch is dead code.  The legacy root `main.go`
version of the same function checks the error before touching the body
and returns it, which is exactly the behavior the claim describes. -/
theorem C8_transport_panic :
    getBranchURLStatus httpDown "https://github.com/acme/foo/tree/issue-1"
      = (.panic nilDerefMsg, [Act.branchLookup "acme" "foo" "issue-1"]) ∧
    getBranchURLStatusLegacy httpDown "https://github.com/acme/foo/tree/issue-1"
      = (.error "dial tcp: connection refused",
         [Act.branchLookup "acme" "foo" "issue-1"]) :=
  ⟨rfl, rfl⟩

/-- C9 counterexample: the input `https://gitlab.com/o/r/tree/b` matches
the claim's URL shape `scheme://host/OWNER/REPO/tree/BRANCH` (with
segments `o`, `r`, `b`), so the claim requires the host lookup to be
issued with those segments; the code instead returns the hard parse
error and performs no lookup at all, because its regexp fixes the scheme
and host to `https://github.com`. -/
theorem C9_counterexample :
    specURLShape "https://gitlab.com/o/r/tree/b" = some ("o", "r", "b") ∧
    getBranchURLStatus http200 "https://gitlab.com/o/r/tree/b"
      = (.ok (.error "branchURL does not match regexp"), []) := by
  constructor
  · decide
  · rfl

/-- C9 amended: the branch-check keys on the code's regexp rather than
the generic spec shape — an input with no substring matching
`https://github.com/OWNER/REPO/tree/BRANCH` (scheme and host fixed,
segments nonempty and slash-free) is a hard error with no lookup issued;
an input containing such a substring issues exactly one lookup whose
owner, repo and branch are the captured segments of the leftmost match;
in particular a whole well-formed `github.com` branch URL yields exactly
its three path segments. -/
theorem C9_url_shape (http : String → Except String Nat) (s : String) :
    (findBranchURLMatch s.data = none →
      getBranchURLStatus http s
        = (.ok (.error "branchURL does not match regexp"), [])) ∧
    (∀ o r b, findBranchURLMatch s.data = some (o, r, b) →
      (getBranchURLStatus http s).snd = [Act.branchLookup o r b]) ∧
    (∀ o r b : String, o.data ≠ [] → r.data ≠ [] → b.data ≠ [] →
      '/' ∉ o.data → '/' ∉ r.data → '/' ∉ b.data →
      findBranchURLMatch ("https://github.com/" ++ o ++ "/" ++ r ++ "/tree/" ++ b).data
        = some (o, r, b)) := by
  refine ⟨?_, ?_, ?_⟩
  · intro h
    simp [getBranchURLStatus, h]
  · intro o r b h
    rcases hh : http ("https://api.github.com/repos/" ++ o ++ "/" ++ r ++ "/branches/" ++ b)
        with e | st <;> simp [getBranchURLStatus, h, hh]
  · intro o r b ho hr hb hos hrs hbs
    have h1 : ("/" : String).data = ['/'] := rfl
    have hdata : ("https://github.com/" ++ o ++ "/" ++ r ++ "/tree/" ++ b).data
        = ghLit ++ (o.data ++ '/' :: (r.data ++ (treeLit ++ b.data))) := by
      simp [String.data_append, ghLit, treeLit, h1, List.append_assoc]
    rw [hdata]
    exact findBranchURLMatch_of_tryMatchAt _ _
      (tryMatchAt_wellformed o.data r.data b.data ho hr hb hos hrs hbs)

/-- Witness for the amended C9: a non-matching input aborts with no
lookup; the spec's concrete URL parses to its three path segments. -/
theorem C9_witness :
    getBranchURLStatus http200 "not-a-url"
      = (.ok (.error "branchURL does not match regexp"), []) ∧
    findBranchURLMatch
        ("https://github.com/" ++ "acme" ++ "/" ++ "foo" ++ "/tree/" ++ "issue-1").data
      = some ("acme", "foo", "issue-1") :=
  ⟨(C9_url_shape http200 "not-a-url").1 (by decide),
   (C9_url_shape http200 "x").2.2 "acme" "foo" "issue-1"
     (by decide) (by decide) (by decide) (by decide) (by decide) (by decide)⟩

